import Mathlib

/-!
Verification of the Richardson extrapolation utility
(`src/utility_scripts/richardson_extrapolation.py`).

The numeric code is embedded over the real numbers: every floating-point
operation of the source is modelled by the corresponding exact real
operation (`np.power x y` and `x ** y` become `Real.rpow`, `np.log`
becomes `Real.log`, Python `abs` becomes `|·|`, Python `min` on floats
becomes `min` on ℝ).  The bounded `for i in range(100)` loop with its
`break` is modelled by the fuel-indexed recursion `loopAux`.

A second, separate model (`Fl`) captures the IEEE-754 special values
(±∞, NaN) that the source relies on for its permissive error handling;
finite arithmetic in that model is idealised as exact real arithmetic,
which is the only aspect the special-value claims depend on.
-/

namespace Richardson

/-- Fuel-bounded loop with a break condition, modelling
`for i in range(n+1): s = step p; if stop p s.2: break; p = s.2`
followed by `return s`.  `stop old new` is the break test evaluated
after an iteration that turned the order estimate `old` into `new`. -/
def loopAux {α β : Type} (step : α → β × α) (stop : α → α → Prop)
    [∀ a b, Decidable (stop a b)] : ℕ → α → β × α
  | 0, p => step p
  | n + 1, p =>
      if stop p (step p).2 then step p else loopAux step stop n (step p).2

theorem loopAux_zero {α β : Type} (step : α → β × α) (stop : α → α → Prop)
    [∀ a b, Decidable (stop a b)] (p : α) :
    loopAux step stop 0 p = step p := rfl

theorem loopAux_succ {α β : Type} (step : α → β × α) (stop : α → α → Prop)
    [∀ a b, Decidable (stop a b)] (n : ℕ) (p : α) :
    loopAux step stop (n + 1) p =
      if stop p (step p).2 then step p else loopAux step stop n (step p).2 := rfl

/-- Complete characterisation of the bounded loop: it returns the output of
the step applied to the `k`-th iterate for some `k ≤ n`, the loop stopped
there either because the fuel ran out (`k = n`) or because the break
condition fired, and the break condition fired at no earlier iteration. -/
theorem loopAux_spec {α β : Type} (step : α → β × α) (stop : α → α → Prop)
    [∀ a b, Decidable (stop a b)] :
    ∀ (n : ℕ) (p : α), ∃ k : ℕ, k ≤ n ∧
      loopAux step stop n p = step ((fun q => (step q).2)^[k] p) ∧
      (k = n ∨ stop ((fun q => (step q).2)^[k] p) ((fun q => (step q).2)^[k + 1] p)) ∧
      ∀ j : ℕ, j < k →
        ¬ stop ((fun q => (step q).2)^[j] p) ((fun q => (step q).2)^[j + 1] p) := by
  intro n
  induction n with
  | zero =>
      intro p
      exact ⟨0, le_refl 0, rfl, Or.inl rfl, fun j hj => absurd hj (Nat.not_lt_zero j)⟩
  | succ n ih =>
      intro p
      by_cases hs : stop p (step p).2
      · refine ⟨0, Nat.zero_le _, ?_, Or.inr ?_, fun j hj => absurd hj (Nat.not_lt_zero j)⟩
        · rw [loopAux_succ, if_pos hs]
          rfl
        · simpa using hs
      · obtain ⟨k, hk, heq, hcase, hmin⟩ := ih (step p).2
        refine ⟨k + 1, Nat.succ_le_succ hk, ?_, ?_, ?_⟩
        · rw [loopAux_succ, if_neg hs, heq, Function.iterate_succ_apply]
        · rcases hcase with h | h
          · exact Or.inl (by rw [h])
          · right
            rw [Function.iterate_succ_apply, Function.iterate_succ_apply]
            exact h
        · intro j hj
          cases j with
          | zero => simpa using hs
          | succ j =>
              rw [Function.iterate_succ_apply, Function.iterate_succ_apply]
              exact hmin j (Nat.lt_of_succ_lt_succ hj)

/-- If the break condition can never fire, the loop consumes all its fuel. -/
theorem loopAux_all {α β : Type} (step : α → β × α) (stop : α → α → Prop)
    [∀ a b, Decidable (stop a b)] (h : ∀ a b, ¬ stop a b) :
    ∀ (n : ℕ) (p : α), loopAux step stop n p = step ((fun q => (step q).2)^[n] p) := by
  intro n
  induction n with
  | zero => intro p; rfl
  | succ n ih =>
      intro p
      rw [loopAux_succ, if_neg (h _ _), ih, Function.iterate_succ_apply]

/-! ## Scalar real-number model of the source functions -/

/-- Source: `extrap(f1, f2, r, p) = f1 + (f1 - f2) / (r**p - 1.0)`. -/
noncomputable def extrap (f1 f2 r p : ℝ) : ℝ := f1 + (f1 - f2) / (r ^ p - 1)

/-- Source: `order(f1, f2, favg, h) = np.log(abs(favg - f2) / abs(favg - f1)) / np.log(h)`. -/
noncomputable def order (f1 f2 favg h : ℝ) : ℝ :=
  Real.log (|favg - f2| / |favg - f1|) / Real.log h

/-- Source: `average(v1, v2) = (v1 + v2) / 2.0`. -/
noncomputable def average (v1 v2 : ℝ) : ℝ := (v1 + v2) / 2

/-- Source: `re_124` — the closed-form doubling branch, returning `(re, 2)`. -/
noncomputable def re_124 (m1 m2 m3 f1 f2 f3 : ℝ) : ℝ × ℝ :=
  (f3 + (f3 - f2) / 3 + (f3 + (f3 - f2) / 3 - (f2 + (f2 - f1) / 3)) / 15, 2)

/-- The refinement ratio of `re_arbitrary`:
`r21 = np.power(m1 / m2, 1. / 3.)` becomes `rcube m1 m2`. -/
noncomputable def rcube (a b : ℝ) : ℝ := (a / b) ^ ((1 : ℝ) / 3)

/-- One iteration of the `re_arbitrary` loop body (scalar inputs):
two pairwise extrapolations, their average, the two re-estimated orders,
and `pavg = min(p1, p2)` (the scalar branch of the `hasattr` test). -/
noncomputable def raStep (f1 f2 f3 r21 r32 : ℝ) (p : ℝ) : ℝ × ℝ :=
  (average (extrap f1 f2 r21 p) (extrap f2 f3 r32 p),
   min (order f1 f2 (average (extrap f1 f2 r21 p) (extrap f2 f3 r32 p)) r21)
       (order f2 f3 (average (extrap f1 f2 r21 p) (extrap f2 f3 r32 p)) r32))

/-- The updated order after one loop iteration. -/
noncomputable def raNext (f1 f2 f3 r21 r32 : ℝ) (q : ℝ) : ℝ :=
  (raStep f1 f2 f3 r21 r32 q).2

open Classical in
/-- Source: `re_arbitrary` — the fixed-point branch.  The first loop pass is
peeled off because it also fixes the normalisation baseline
`error1 = abs(pavg - p)`; the remaining ≤ 99 passes run through `loopAux`
with the break test `abs(pavg - p) / error1 < reltol` (for a scalar,
`np.max` of the relative error is the relative error itself). -/
noncomputable def re_arbitrary (m1 m2 m3 f1 f2 f3 p reltol : ℝ) : ℝ × ℝ :=
  let r21 := rcube m1 m2
  let r32 := rcube m2 m3
  let error1 := |raNext f1 f2 f3 r21 r32 p - p|
  if |raNext f1 f2 f3 r21 r32 p - p| / error1 < reltol then
    raStep f1 f2 f3 r21 r32 p
  else
    loopAux (raStep f1 f2 f3 r21 r32)
      (fun pp q => |q - pp| / error1 < reltol) 98 (raNext f1 f2 f3 r21 r32 p)

open Classical in
/-- Source: `extrapolate` — dispatch on the exact equalities
`m3 == m2 * 2 and m2 == m1 * 2` (defaults `p = 2`, `reltol = 1.0e-12`
are supplied by callers here). -/
noncomputable def extrapolate (m1 m2 m3 f1 f2 f3 p reltol : ℝ) : ℝ × ℝ :=
  if m3 = m2 * 2 ∧ m2 = m1 * 2 then re_124 m1 m2 m3 f1 f2 f3
  else re_arbitrary m1 m2 m3 f1 f2 f3 p reltol

/-! ## Claims C1, C2, C4, C9 -/

/-- C1: whenever `m3 = 2*m2` and `m2 = 2*m1`, `extrapolate` returns exactly
the pair `(f32 + (f32 - f21)/15, 2)` with `f21 = f2 + (f2 - f1)/3` and
`f32 = f3 + (f3 - f2)/3`; the order is the fixed value `2`, independent of
the assumed order `p` (which is universally quantified here). -/
theorem c1_doubling_exact (m1 m2 m3 f1 f2 f3 p reltol : ℝ)
    (h32 : m3 = 2 * m2) (h21 : m2 = 2 * m1) :
    extrapolate m1 m2 m3 f1 f2 f3 p reltol =
      (f3 + (f3 - f2) / 3 + (f3 + (f3 - f2) / 3 - (f2 + (f2 - f1) / 3)) / 15, 2) := by
  have hc : m3 = m2 * 2 ∧ m2 = m1 * 2 := ⟨by linarith, by linarith⟩
  rw [extrapolate, if_pos hc]
  rfl

/-- Witness for C1 at `m = (1, 2, 4)`, `f = (5, 6, 7)`, assumed order 3. -/
theorem c1_doubling_exact_witness :
    extrapolate 1 2 4 5 6 7 3 (1e-12) =
      (7 + (7 - 6) / 3 + (7 + (7 - 6) / 3 - (6 + (6 - 5) / 3)) / 15, 2) :=
  c1_doubling_exact 1 2 4 5 6 7 3 (1e-12) (by norm_num) (by norm_num)

/-- C2: sampling `f(m) = C + D / m^2` at resolutions `m1, 2*m1, 4*m1`
with `m1 > 0` makes `extrapolate` return exactly `(C, 2)`. -/
theorem c2_exact_recovery (C D m1 p reltol : ℝ) (h : 0 < m1) :
    extrapolate m1 (2 * m1) (4 * m1)
      (C + D / m1 ^ 2) (C + D / (2 * m1) ^ 2) (C + D / (4 * m1) ^ 2) p reltol
      = (C, 2) := by
  have hm : m1 ≠ 0 := ne_of_gt h
  have hc : (4 : ℝ) * m1 = (2 * m1) * 2 ∧ 2 * m1 = m1 * 2 := ⟨by ring, by ring⟩
  rw [extrapolate, if_pos hc, re_124, Prod.mk.injEq]
  constructor
  · field_simp
    ring
  · rfl

/-- Witness for C2 at `C = 3`, `D = 5`, `m1 = 1`. -/
theorem c2_exact_recovery_witness :
    extrapolate 1 (2 * 1) (4 * 1)
      (3 + 5 / (1 : ℝ) ^ 2) (3 + 5 / (2 * (1 : ℝ)) ^ 2) (3 + 5 / (4 * (1 : ℝ)) ^ 2)
      2 (1e-12) = (3, 2) :=
  c2_exact_recovery 3 5 1 2 (1e-12) (by norm_num)

/-- C4: `extrapolate` dispatches to the closed-form doubling branch `re_124`
exactly when both equalities `m3 = m2 * 2` and `m2 = m1 * 2` hold, and to the
iterative branch `re_arbitrary` in every other case. -/
theorem c4_dispatch (m1 m2 m3 f1 f2 f3 p reltol : ℝ) :
    ((m3 = m2 * 2 ∧ m2 = m1 * 2) →
      extrapolate m1 m2 m3 f1 f2 f3 p reltol = re_124 m1 m2 m3 f1 f2 f3) ∧
    (¬ (m3 = m2 * 2 ∧ m2 = m1 * 2) →
      extrapolate m1 m2 m3 f1 f2 f3 p reltol = re_arbitrary m1 m2 m3 f1 f2 f3 p reltol) := by
  constructor
  · intro hc
    rw [extrapolate, if_pos hc]
  · intro hc
    rw [extrapolate, if_neg hc]

/-- Witness for C4: the doubling triple `(1, 2, 4)` takes the closed-form
branch and the approximately-doubled triple `(1, 2.1, 4)` takes the
iterative branch. -/
theorem c4_dispatch_witness :
    extrapolate 1 2 4 5 6 7 2 (1e-12) = re_124 1 2 4 5 6 7 ∧
    extrapolate 1 2.1 4 5 6 7 2 (1e-12) = re_arbitrary 1 2.1 4 5 6 7 2 (1e-12) :=
  ⟨(c4_dispatch 1 2 4 5 6 7 2 (1e-12)).1 (by norm_num),
   (c4_dispatch 1 2.1 4 5 6 7 2 (1e-12)).2 (by norm_num)⟩

/-- C9: `extrapolate` is a pure function of its arguments — two calls with
equal arguments return equal results (the embedding is stateless, so no
input mutation or persistent state exists by construction; the source's
diagnostic `print` affects no returned value). -/
theorem c9_deterministic (m1 m2 m3 f1 f2 f3 p rt n1 n2 n3 g1 g2 g3 q rt' : ℝ)
    (h1 : m1 = n1) (h2 : m2 = n2) (h3 : m3 = n3) (h4 : f1 = g1)
    (h5 : f2 = g2) (h6 : f3 = g3) (h7 : p = q) (h8 : rt = rt') :
    extrapolate m1 m2 m3 f1 f2 f3 p rt = extrapolate n1 n2 n3 g1 g2 g3 q rt' := by
  rw [h1, h2, h3, h4, h5, h6, h7, h8]

/-- Witness for C9 at a concrete argument tuple. -/
theorem c9_deterministic_witness :
    extrapolate 10 17 33 5 6 7 2 (1e-12) = extrapolate 10 17 33 5 6 7 2 (1e-12) :=
  c9_deterministic 10 17 33 5 6 7 2 (1e-12) 10 17 33 5 6 7 2 (1e-12)
    rfl rfl rfl rfl rfl rfl rfl rfl

/-! ## Array-valued model

numpy's elementwise arithmetic on equal-length 1-D arrays is modelled by
`List.zipWith`; a three-argument elementwise operation by `zipWith3`.
Broadcasting the scalar initial order `p` over an array is modelled by
`List.replicate`. -/

def zipWith3 {α β γ δ : Type} (f : α → β → γ → δ) : List α → List β → List γ → List δ
  | a :: as, b :: bs, c :: cs => f a b c :: zipWith3 f as bs cs
  | _, _, _ => []

theorem zipWith3_length {α β γ δ : Type} (f : α → β → γ → δ) :
    ∀ (l1 : List α) (l2 : List β) (l3 : List γ),
      (zipWith3 f l1 l2 l3).length = min l1.length (min l2.length l3.length) := by
  intro l1
  induction l1 with
  | nil => intro l2 l3; cases l2 <;> cases l3 <;> simp [zipWith3]
  | cons a as ih =>
      intro l2 l3
      cases l2 with
      | nil => simp [zipWith3]
      | cons b bs =>
          cases l3 with
          | nil => simp [zipWith3]
          | cons c cs =>
              simp only [zipWith3, List.length_cons, ih]
              omega

/-- `extrap` on arrays: `f1 + (f1 - f2) / (r**p - 1.0)` elementwise, with a
per-element order `p`. -/
noncomputable def lextrap (f1 f2 : List ℝ) (r : ℝ) (p : List ℝ) : List ℝ :=
  zipWith3 (fun a b q => a + (a - b) / (r ^ q - 1)) f1 f2 p

/-- `order` on arrays: `np.log(abs(favg - f2) / abs(favg - f1)) / np.log(h)`
elementwise. -/
noncomputable def lorder (f1 f2 favg : List ℝ) (h : ℝ) : List ℝ :=
  zipWith3 (fun a b g => Real.log (|g - b| / |g - a|) / Real.log h) f1 f2 favg

/-- `average` on arrays: `(v1 + v2) / 2.0` elementwise. -/
noncomputable def laverage (v1 v2 : List ℝ) : List ℝ :=
  List.zipWith (fun a b => (a + b) / 2) v1 v2

/-- One iteration of the `re_arbitrary` loop body for array inputs; the
`hasattr(p1, '__iter__')` branch takes the per-element minimum
`[min(a1, a2) for a1, a2 in zip(p1, p2)]`, i.e. `List.zipWith min`. -/
noncomputable def listStep (f1 f2 f3 : List ℝ) (r21 r32 : ℝ) (p : List ℝ) :
    List ℝ × List ℝ :=
  let favg := laverage (lextrap f1 f2 r21 p) (lextrap f2 f3 r32 p)
  (favg, List.zipWith min (lorder f1 f2 favg r21) (lorder f2 f3 favg r32))

/-- `re_124` on arrays: the same closed-form formulas elementwise; the order
is returned as the scalar `2` even for array samples. -/
noncomputable def listRe_124 (f1 f2 f3 : List ℝ) : List ℝ × ℝ :=
  let f21 := List.zipWith (fun a b => b + (b - a) / 3) f1 f2
  let f32 := List.zipWith (fun b c => c + (c - b) / 3) f2 f3
  (List.zipWith (fun x y => y + (y - x) / 15) f21 f32, 2)

/-- `np.max` over an array, modelled for the only uses made of it here:
nonempty arrays of nonnegative relative errors. -/
noncomputable def lmax (l : List ℝ) : ℝ := l.foldr max 0

open Classical in
/-- `re_arbitrary` for array inputs: the scalar initial order is broadcast,
`error1` is the per-element `abs(pavg - p)` of the first pass, and the break
test is `np.max(abs(pavg - p) / error1) < reltol`. -/
noncomputable def listRe_arbitrary (m1 m2 m3 : ℝ) (f1 f2 f3 : List ℝ)
    (p0 reltol : ℝ) : List ℝ × List ℝ :=
  let r21 := rcube m1 m2
  let r32 := rcube m2 m3
  let pinit := List.replicate f1.length p0
  let s0 := listStep f1 f2 f3 r21 r32 pinit
  let error1 := List.zipWith (fun a b => |a - b|) s0.2 pinit
  if lmax (zipWith3 (fun a b e => |a - b| / e) s0.2 pinit error1) < reltol then s0
  else
    loopAux (listStep f1 f2 f3 r21 r32)
      (fun pp q => lmax (zipWith3 (fun a b e => |a - b| / e) q pp error1) < reltol)
      98 s0.2

theorem listStep_length {n : ℕ} {f1 f2 f3 p : List ℝ} (r21 r32 : ℝ)
    (h1 : f1.length = n) (h2 : f2.length = n) (h3 : f3.length = n)
    (hp : p.length = n) :
    (listStep f1 f2 f3 r21 r32 p).1.length = n ∧
    (listStep f1 f2 f3 r21 r32 p).2.length = n := by
  constructor <;>
    simp [listStep, laverage, lextrap, lorder, List.length_zipWith,
      zipWith3_length, h1, h2, h3, hp]

theorem listStep_iterate_length {n : ℕ} {f1 f2 f3 : List ℝ} (r21 r32 : ℝ)
    (h1 : f1.length = n) (h2 : f2.length = n) (h3 : f3.length = n) :
    ∀ (k : ℕ) (p : List ℝ), p.length = n →
      ((fun q => (listStep f1 f2 f3 r21 r32 q).2)^[k] p).length = n := by
  intro k
  induction k with
  | zero => intro p hp; simpa using hp
  | succ k ih =>
      intro p hp
      rw [Function.iterate_succ_apply]
      exact ih _ ((listStep_length r21 r32 h1 h2 h3 hp).2)

/-! ## Claims C5, C6, C8 -/

/-- Modelled from the spec: the iteration step of Case B exactly as §4.1
words it — `r21 = (m1/m2)^(1/3)`, `r32 = (m2/m3)^(1/3)`,
`fext1 = f1 + (f1 - f2)/(r21^p - 1)`, `fext2 = f2 + (f2 - f3)/(r32^p - 1)`,
`fextavg = (fext1 + fext2)/2`,
`order1 = ln(|fextavg - f2|/|fextavg - f1|)/ln(r21)`,
`order2 = ln(|fextavg - f3|/|fextavg - f2|)/ln(r32)`, next order
`min order1 order2`.  Compared against the source-derived `raStep`. -/
noncomputable def specIterStep (m1 m2 m3 f1 f2 f3 p : ℝ) : ℝ × ℝ :=
  let r21 := (m1 / m2) ^ ((1 : ℝ) / 3)
  let r32 := (m2 / m3) ^ ((1 : ℝ) / 3)
  let fext1 := f1 + (f1 - f2) / (r21 ^ p - 1)
  let fext2 := f2 + (f2 - f3) / (r32 ^ p - 1)
  let fextavg := (fext1 + fext2) / 2
  let order1 := Real.log (|fextavg - f2| / |fextavg - f1|) / Real.log r21
  let order2 := Real.log (|fextavg - f3| / |fextavg - f2|) / Real.log r32
  (fextavg, min order1 order2)

/-- C5: each iteration of the iterative branch computes exactly the pair the
spec describes — extrapolations from both sample pairs with
`r21 = (m1/m2)^(1/3)` and `r32 = (m2/m3)^(1/3)`, their arithmetic mean as
candidate value, the two re-estimated logarithmic orders, and the next order
as their minimum (scalar minimum for scalars, per-element minimum via
`List.zipWith min` for array inputs). -/
theorem c5_iteration_step (m1 m2 m3 f1 f2 f3 p : ℝ) (g1 g2 g3 q : List ℝ) :
    raStep f1 f2 f3 (rcube m1 m2) (rcube m2 m3) p = specIterStep m1 m2 m3 f1 f2 f3 p ∧
    (listStep g1 g2 g3 (rcube m1 m2) (rcube m2 m3) q).2 =
      List.zipWith min
        (lorder g1 g2
          (laverage (lextrap g1 g2 (rcube m1 m2) q) (lextrap g2 g3 (rcube m2 m3) q))
          (rcube m1 m2))
        (lorder g2 g3
          (laverage (lextrap g1 g2 (rcube m1 m2) q) (lextrap g2 g3 (rcube m2 m3) q))
          (rcube m2 m3)) :=
  ⟨rfl, rfl⟩

/-- C6: the iterative branch performs at most 100 iterations in total (the
peeled first pass plus `k ≤ 99` further passes), returns the `(fextavg, pavg)`
pair of its final iteration unconditionally (the function is total — nothing
is raised on non-convergence), and breaks early exactly when the relative
error `|p_new - p_prev| / error1` with baseline
`error1 = |p after the first iteration - assumed order|` drops below
`reltol`, never earlier. -/
theorem c6_loop_bound (m1 m2 m3 f1 f2 f3 p reltol : ℝ) :
    ∃ k : ℕ, k ≤ 99 ∧
      re_arbitrary m1 m2 m3 f1 f2 f3 p reltol =
        raStep f1 f2 f3 (rcube m1 m2) (rcube m2 m3)
          ((raNext f1 f2 f3 (rcube m1 m2) (rcube m2 m3))^[k] p) ∧
      (k = 99 ∨
        |(raNext f1 f2 f3 (rcube m1 m2) (rcube m2 m3))^[k + 1] p -
            (raNext f1 f2 f3 (rcube m1 m2) (rcube m2 m3))^[k] p| /
          |raNext f1 f2 f3 (rcube m1 m2) (rcube m2 m3) p - p| < reltol) ∧
      ∀ j : ℕ, j < k →
        ¬ (|(raNext f1 f2 f3 (rcube m1 m2) (rcube m2 m3))^[j + 1] p -
              (raNext f1 f2 f3 (rcube m1 m2) (rcube m2 m3))^[j] p| /
            |raNext f1 f2 f3 (rcube m1 m2) (rcube m2 m3) p - p| < reltol) := by
  classical
  by_cases h0 : |raNext f1 f2 f3 (rcube m1 m2) (rcube m2 m3) p - p| /
      |raNext f1 f2 f3 (rcube m1 m2) (rcube m2 m3) p - p| < reltol
  · refine ⟨0, by norm_num, ?_, Or.inr ?_, fun j hj => absurd hj (Nat.not_lt_zero j)⟩
    · simp only [re_arbitrary]
      rw [if_pos h0]
      simp
    · simpa using h0
  · obtain ⟨k, hk, heq, hcase, hmin⟩ :=
      loopAux_spec (raStep f1 f2 f3 (rcube m1 m2) (rcube m2 m3))
        (fun pp q => |q - pp| /
          |raNext f1 f2 f3 (rcube m1 m2) (rcube m2 m3) p - p| < reltol)
        98 (raNext f1 f2 f3 (rcube m1 m2) (rcube m2 m3) p)
    refine ⟨k + 1, by omega, ?_, ?_, ?_⟩
    · simp only [re_arbitrary]
      rw [if_neg h0, heq, Function.iterate_succ_apply]
      rfl
    · rcases hcase with h | h
      · exact Or.inl (by omega)
      · right
        rw [Function.iterate_succ_apply, Function.iterate_succ_apply]
        exact h
    · intro j hj
      cases j with
      | zero => simpa using h0
      | succ j =>
          rw [Function.iterate_succ_apply, Function.iterate_succ_apply]
          exact hmin j (Nat.lt_of_succ_lt_succ hj)

/-- C8: for equal-length array samples, the closed-form branch returns an
extrapolated array of the same length (with a scalar order), and the
iterative branch returns both an extrapolated array and a per-element order
array of that same length. -/
theorem c8_shapes (m1 m2 m3 p0 reltol : ℝ) (f1 f2 f3 : List ℝ) (n : ℕ)
    (h1 : f1.length = n) (h2 : f2.length = n) (h3 : f3.length = n) :
    (listRe_124 f1 f2 f3).1.length = n ∧
    (listRe_arbitrary m1 m2 m3 f1 f2 f3 p0 reltol).1.length = n ∧
    (listRe_arbitrary m1 m2 m3 f1 f2 f3 p0 reltol).2.length = n := by
  classical
  have h124 : (listRe_124 f1 f2 f3).1.length = n := by
    simp [listRe_124, List.length_zipWith, h1, h2, h3]
  have hpinit : (List.replicate f1.length p0).length = n := by
    simp [h1]
  have key : ∃ q : List ℝ, q.length = n ∧
      listRe_arbitrary m1 m2 m3 f1 f2 f3 p0 reltol =
        listStep f1 f2 f3 (rcube m1 m2) (rcube m2 m3) q := by
    simp only [listRe_arbitrary]
    by_cases hc : lmax (zipWith3 (fun a b e => |a - b| / e)
        (listStep f1 f2 f3 (rcube m1 m2) (rcube m2 m3) (List.replicate f1.length p0)).2
        (List.replicate f1.length p0)
        (List.zipWith (fun a b => |a - b|)
          (listStep f1 f2 f3 (rcube m1 m2) (rcube m2 m3) (List.replicate f1.length p0)).2
          (List.replicate f1.length p0))) < reltol
    · rw [if_pos hc]
      exact ⟨List.replicate f1.length p0, hpinit, rfl⟩
    · rw [if_neg hc]
      obtain ⟨k, _, heq, _, _⟩ :=
        loopAux_spec (listStep f1 f2 f3 (rcube m1 m2) (rcube m2 m3))
          (fun pp q => lmax (zipWith3 (fun a b e => |a - b| / e) q pp
            (List.zipWith (fun a b => |a - b|)
              (listStep f1 f2 f3 (rcube m1 m2) (rcube m2 m3)
                (List.replicate f1.length p0)).2
              (List.replicate f1.length p0))) < reltol)
          98 (listStep f1 f2 f3 (rcube m1 m2) (rcube m2 m3) (List.replicate f1.length p0)).2
      refine ⟨_, ?_, heq⟩
      exact listStep_iterate_length (rcube m1 m2) (rcube m2 m3) h1 h2 h3 k _
        (listStep_length (rcube m1 m2) (rcube m2 m3) h1 h2 h3 hpinit).2
  obtain ⟨q, hq, hres⟩ := key
  have hs := listStep_length (rcube m1 m2) (rcube m2 m3) h1 h2 h3 hq
  exact ⟨h124, by rw [hres]; exact hs.1, by rw [hres]; exact hs.2⟩

/-- Witness for C8 with length-2 arrays at the non-doubling resolutions
`(10, 17, 33)`. -/
theorem c8_shapes_witness :
    (listRe_124 [1, 2] [3, 4] [5, 6]).1.length = 2 ∧
    (listRe_arbitrary 10 17 33 [1, 2] [3, 4] [5, 6] 2 (1e-12)).1.length = 2 ∧
    (listRe_arbitrary 10 17 33 [1, 2] [3, 4] [5, 6] 2 (1e-12)).2.length = 2 :=
  c8_shapes 10 17 33 2 (1e-12) [1, 2] [3, 4] [5, 6] 2 rfl rfl rfl

/-! ## Claim C3: the fixed point of the iterative branch on model data

For samples `f(m) = C + D / m^p` the update of `re_arbitrary` has the
self-consistent state `(C, 3p)` — not `(C, p)` — because the refinement
ratios are cube roots: `r21 = (m1/m2)^(1/3)`, so the error ratio
`(m1/m2)^p` equals `r21^(3p)`. -/

theorem rcube_pos {a b : ℝ} (ha : 0 < a) (hb : 0 < b) : 0 < rcube a b :=
  Real.rpow_pos_of_pos (div_pos ha hb) _

theorem rcube_rpow (a b : ℝ) (ha : 0 ≤ a) (hb : 0 ≤ b) (q : ℝ) :
    rcube a b ^ (3 * q) = (a / b) ^ q := by
  rw [rcube, ← Real.rpow_mul (div_nonneg ha hb)]
  congr 1
  ring

theorem log_div_ne_zero (a b : ℝ) (ha : 0 < a) (hb : 0 < b) (hab : a ≠ b) :
    Real.log (a / b) ≠ 0 := by
  intro h
  rcases Real.log_eq_zero.mp h with h1 | h1 | h1
  · exact (div_pos ha hb).ne' h1
  · apply hab
    have := (div_eq_iff hb.ne').mp h1
    linarith
  · have hpos := div_pos ha hb
    rw [h1] at hpos
    linarith

theorem log_rcube_ne_zero (a b : ℝ) (ha : 0 < a) (hb : 0 < b) (hab : a ≠ b) :
    Real.log (rcube a b) ≠ 0 := by
  rw [rcube, Real.log_rpow (div_pos ha hb)]
  intro h
  rcases mul_eq_zero.mp h with h1 | h1
  · norm_num at h1
  · exact log_div_ne_zero a b ha hb hab h1

theorem rpow_ne_of_base_ne (a b q : ℝ) (ha : 0 < a) (hb : 0 < b) (hab : a ≠ b)
    (hq : q ≠ 0) : a ^ q ≠ b ^ q := by
  intro h
  have hB : (0:ℝ) < b ^ q := Real.rpow_pos_of_pos hb q
  have h1 : (a / b) ^ q = 1 := by
    rw [Real.div_rpow ha.le hb.le, h, div_self hB.ne']
  have h2 := congrArg Real.log h1
  rw [Real.log_rpow (div_pos ha hb), Real.log_one] at h2
  rcases mul_eq_zero.mp h2 with h3 | h3
  · exact hq h3
  · exact log_div_ne_zero a b ha hb hab h3

theorem extrap_formula (C D A B r q : ℝ) (hA : A ≠ 0) (hB : B ≠ 0) (hAB : A ≠ B)
    (hr : r ^ q = A / B) : extrap (C + D / A) (C + D / B) r q = C := by
  have hABs : A - B ≠ 0 := sub_ne_zero.mpr hAB
  rw [extrap, hr, div_sub_one hB, div_div_eq_mul_div]
  field_simp
  ring

theorem order_formula (C D A B r q : ℝ) (hA : 0 < A) (hB : 0 < B) (hD : D ≠ 0)
    (hrpos : 0 < r) (hlog : Real.log r ≠ 0) (hr : r ^ q = A / B) :
    order (C + D / A) (C + D / B) C r = q := by
  have hDabs : (0:ℝ) < |D| := abs_pos.mpr hD
  have h2 : C - (C + D / B) = -(D / B) := by ring
  have h1 : C - (C + D / A) = -(D / A) := by ring
  rw [order, h2, h1, abs_neg, abs_neg, abs_div, abs_div,
    abs_of_pos hA, abs_of_pos hB]
  have hratio : |D| / B / (|D| / A) = A / B := by
    field_simp
    ring
  rw [hratio, ← hr, Real.log_rpow hrpos, mul_div_assoc, div_self hlog, mul_one]

/-- The general fixed-point computation behind C3: on data drawn from
`f(m) = C + D / m^q` at three distinct positive resolutions, one iteration
of the `re_arbitrary` loop body taken at order `3*q` reproduces exactly the
pair `(C, 3*q)`. -/
theorem raStep_modelFixed (C D q m1 m2 m3 : ℝ) (hm1 : 0 < m1) (hm2 : 0 < m2)
    (hm3 : 0 < m3) (h12 : m1 ≠ m2) (h23 : m2 ≠ m3) (hD : D ≠ 0) (hq : q ≠ 0) :
    raStep (C + D / m1 ^ q) (C + D / m2 ^ q) (C + D / m3 ^ q)
      (rcube m1 m2) (rcube m2 m3) (3 * q) = (C, 3 * q) := by
  have hA : (0:ℝ) < m1 ^ q := Real.rpow_pos_of_pos hm1 q
  have hB : (0:ℝ) < m2 ^ q := Real.rpow_pos_of_pos hm2 q
  have hE : (0:ℝ) < m3 ^ q := Real.rpow_pos_of_pos hm3 q
  have hr21 : rcube m1 m2 ^ (3 * q) = m1 ^ q / m2 ^ q := by
    rw [rcube_rpow m1 m2 hm1.le hm2.le q, Real.div_rpow hm1.le hm2.le]
  have hr32 : rcube m2 m3 ^ (3 * q) = m2 ^ q / m3 ^ q := by
    rw [rcube_rpow m2 m3 hm2.le hm3.le q, Real.div_rpow hm2.le hm3.le]
  have hAB : m1 ^ q ≠ m2 ^ q := rpow_ne_of_base_ne m1 m2 q hm1 hm2 h12 hq
  have hBE : m2 ^ q ≠ m3 ^ q := rpow_ne_of_base_ne m2 m3 q hm2 hm3 h23 hq
  have hv1 : extrap (C + D / m1 ^ q) (C + D / m2 ^ q) (rcube m1 m2) (3 * q) = C :=
    extrap_formula C D _ _ _ _ hA.ne' hB.ne' hAB hr21
  have hv2 : extrap (C + D / m2 ^ q) (C + D / m3 ^ q) (rcube m2 m3) (3 * q) = C :=
    extrap_formula C D _ _ _ _ hB.ne' hE.ne' hBE hr32
  have havg : average (extrap (C + D / m1 ^ q) (C + D / m2 ^ q) (rcube m1 m2) (3 * q))
      (extrap (C + D / m2 ^ q) (C + D / m3 ^ q) (rcube m2 m3) (3 * q)) = C := by
    rw [hv1, hv2, average]
    ring
  have ho1 : order (C + D / m1 ^ q) (C + D / m2 ^ q) C (rcube m1 m2) = 3 * q :=
    order_formula C D _ _ _ _ hA hB hD (rcube_pos hm1 hm2)
      (log_rcube_ne_zero m1 m2 hm1 hm2 h12) hr21
  have ho2 : order (C + D / m2 ^ q) (C + D / m3 ^ q) C (rcube m2 m3) = 3 * q :=
    order_formula C D _ _ _ _ hB hE hD (rcube_pos hm2 hm3)
      (log_rcube_ne_zero m2 m3 hm2 hm3 h23) hr32
  simp only [raStep]
  rw [havg, ho1, ho2, min_self]

/-- C3 counterexample: at the claim's own example input — samples from
`f(m) = 1 + 1/m^3` (`C = 1`, `D = 1`, `p = 3`) at the non-doubling
resolutions `(10, 17, 33)` — the loop body of the iterative branch maps
order `9` to exactly `(C, 9)`: the self-consistent converged order of the
iteration on third-order data is `9 = 3·p`, which is not the claimed `p = 3`
(the cube-root refinement ratios triple every estimated order). -/
theorem c3_counterexample :
    raStep (1 + 1 / 1000) (1 + 1 / 4913) (1 + 1 / 35937)
      (rcube 10 17) (rcube 17 33) 9 = (1, 9) ∧ (9 : ℝ) ≠ 3 := by
  constructor
  · have h := raStep_modelFixed 1 1 3 10 17 33 (by norm_num) (by norm_num)
      (by norm_num) (by norm_num) (by norm_num) (by norm_num) (by norm_num)
    have e10 : (10:ℝ) ^ (3:ℝ) = 1000 := by
      rw [show (3:ℝ) = ((3:ℕ):ℝ) by norm_num, Real.rpow_natCast]
      norm_num
    have e17 : (17:ℝ) ^ (3:ℝ) = 4913 := by
      rw [show (3:ℝ) = ((3:ℕ):ℝ) by norm_num, Real.rpow_natCast]
      norm_num
    have e33 : (33:ℝ) ^ (3:ℝ) = 35937 := by
      rw [show (3:ℝ) = ((3:ℕ):ℝ) by norm_num, Real.rpow_natCast]
      norm_num
    rw [e10, e17, e33] at h
    norm_num at h ⊢
    exact h
  · norm_num

/-- C3 (amended): for samples from `f(m) = C + D/m^q` at three distinct
positive resolutions, the self-consistent state of the iterative branch has
extrapolated value exactly `C` and order `3*q` (not `q`): one iteration of
the loop body taken at order `3*q` returns exactly `(C, 3*q)`.  The factor 3
comes from the cube-root refinement ratios `r = (m/m')^(1/3)` of the source. -/
theorem c3_fixed_point_order (C D q m1 m2 m3 : ℝ) (hm1 : 0 < m1) (hm2 : 0 < m2)
    (hm3 : 0 < m3) (h12 : m1 ≠ m2) (h23 : m2 ≠ m3) (hD : D ≠ 0) (hq : q ≠ 0) :
    raStep (C + D / m1 ^ q) (C + D / m2 ^ q) (C + D / m3 ^ q)
      (rcube m1 m2) (rcube m2 m3) (3 * q) = (C, 3 * q) :=
  raStep_modelFixed C D q m1 m2 m3 hm1 hm2 hm3 h12 h23 hD hq

/-- Witness for the amended C3 at `C = 2`, `D = 5`, `q = 3`,
`m = (10, 17, 33)`. -/
theorem c3_fixed_point_order_witness :
    raStep (2 + 5 / (10:ℝ) ^ (3:ℝ)) (2 + 5 / (17:ℝ) ^ (3:ℝ)) (2 + 5 / (33:ℝ) ^ (3:ℝ))
      (rcube 10 17) (rcube 17 33) (3 * 3) = (2, 3 * 3) :=
  c3_fixed_point_order 2 5 3 10 17 33 (by norm_num) (by norm_num) (by norm_num)
    (by norm_num) (by norm_num) (by norm_num) (by norm_num)

/-! ## IEEE-754 special-value model

The permissive error handling of the source (claims about NaN/inf) depends
only on how numpy float64 arithmetic treats the special values `+inf`,
`-inf` and `nan`.  `Fl` models a float64 as either an (idealised, exact)
finite real or one of those special values; each operation below implements
the IEEE-754 special-value rules, with finite-by-finite arithmetic mapped to
exact real arithmetic.  Rounding and overflow of finite intermediate results
are not modelled; zero is unsigned and treated as IEEE `+0`, matching every
use the claims exercise.  Negative-infinity bases of `pow` with odd integer
exponents keep the IEEE magnitude but not the sign refinement; no claim
touches that corner. -/

inductive Fl where
  | fin (x : ℝ)
  | pinf
  | ninf
  | nan

namespace Fl

noncomputable def neg : Fl → Fl
  | nan => nan
  | pinf => ninf
  | ninf => pinf
  | fin a => fin (-a)

noncomputable def add : Fl → Fl → Fl
  | nan, _ => nan
  | _, nan => nan
  | pinf, ninf => nan
  | ninf, pinf => nan
  | pinf, _ => pinf
  | _, pinf => pinf
  | ninf, _ => ninf
  | _, ninf => ninf
  | fin a, fin b => fin (a + b)

noncomputable def sub (x y : Fl) : Fl := add x (neg y)

noncomputable def mul : Fl → Fl → Fl
  | nan, _ => nan
  | _, nan => nan
  | pinf, pinf => pinf
  | pinf, ninf => ninf
  | ninf, pinf => ninf
  | ninf, ninf => pinf
  | pinf, fin b => if b = 0 then nan else if b < 0 then ninf else pinf
  | fin a, pinf => if a = 0 then nan else if a < 0 then ninf else pinf
  | ninf, fin b => if b = 0 then nan else if b < 0 then pinf else ninf
  | fin a, ninf => if a = 0 then nan else if a < 0 then pinf else ninf
  | fin a, fin b => fin (a * b)

noncomputable def div : Fl → Fl → Fl
  | nan, _ => nan
  | _, nan => nan
  | pinf, pinf => nan
  | pinf, ninf => nan
  | ninf, pinf => nan
  | ninf, ninf => nan
  | pinf, fin b => if b < 0 then ninf else pinf
  | ninf, fin b => if b < 0 then pinf else ninf
  | fin _, pinf => fin 0
  | fin _, ninf => fin 0
  | fin a, fin b =>
      if b = 0 then (if a = 0 then nan else if a < 0 then ninf else pinf)
      else fin (a / b)

noncomputable def abs : Fl → Fl
  | nan => nan
  | pinf => pinf
  | ninf => pinf
  | fin a => fin |a|

noncomputable def log : Fl → Fl
  | nan => nan
  | pinf => pinf
  | ninf => nan
  | fin a => if a < 0 then nan else if a = 0 then ninf else fin (Real.log a)

noncomputable def lt : Fl → Fl → Bool
  | nan, _ => false
  | _, nan => false
  | pinf, _ => false
  | ninf, ninf => false
  | ninf, _ => true
  | fin _, pinf => true
  | fin _, ninf => false
  | fin a, fin b => if a < b then true else false

noncomputable def beq : Fl → Fl → Bool
  | nan, _ => false
  | _, nan => false
  | pinf, pinf => true
  | ninf, ninf => true
  | fin a, fin b => if a = b then true else false
  | _, _ => false

/-- CPython `min(a, b)`: `b` if `b < a` else `a` (comparisons with NaN are
false, so `min(nan, x) = nan` and `min(x, nan) = x`). -/
noncomputable def min (x y : Fl) : Fl := if lt y x = true then y else x

open Classical in
/-- IEEE-754 `pow` (numpy `**`/`np.power`): `pow(x, ±0) = 1` for every `x`,
`pow(+1, y) = 1` for every `y` (NaN included), NaN propagates otherwise;
infinite exponents compare `|base|` against 1; a negative finite base gives
NaN unless the exponent is an integer. -/
noncomputable def pow : Fl → Fl → Fl
  | x, fin e =>
      if e = 0 then fin 1
      else
        match x with
        | fin b =>
            if b = 0 then (if e < 0 then pinf else fin 0)
            else if 0 < b then fin (b ^ e)
            else if ∃ n : ℤ, (n : ℝ) = e ∧ Odd n then fin (-(|b| ^ e))
            else if ∃ n : ℤ, (n : ℝ) = e then fin (|b| ^ e)
            else nan
        | pinf => if e < 0 then fin 0 else pinf
        | ninf => if e < 0 then fin 0 else pinf
        | nan => nan
  | fin b, nan => if b = 1 then fin 1 else nan
  | pinf, nan => nan
  | ninf, nan => nan
  | nan, nan => nan
  | x, pinf =>
      match x with
      | fin b => if |b| < 1 then fin 0 else if |b| = 1 then fin 1 else pinf
      | pinf => pinf
      | ninf => pinf
      | nan => nan
  | x, ninf =>
      match x with
      | fin b => if |b| < 1 then pinf else if |b| = 1 then fin 1 else fin 0
      | pinf => fin 0
      | ninf => fin 0
      | nan => nan

def isFinite : Fl → Bool
  | fin _ => true
  | _ => false

theorem add_fin_fin (a b : ℝ) : add (fin a) (fin b) = fin (a + b) := rfl

theorem mul_fin_fin (a b : ℝ) : mul (fin a) (fin b) = fin (a * b) := rfl

theorem sub_fin_fin (a b : ℝ) : sub (fin a) (fin b) = fin (a - b) := by
  simp [sub, add, neg, sub_eq_add_neg]

theorem abs_fin (a : ℝ) : abs (fin a) = fin |a| := rfl

theorem div_fin_fin (a b : ℝ) (hb : b ≠ 0) : div (fin a) (fin b) = fin (a / b) := by
  simp [div, hb]

theorem log_fin_pos (a : ℝ) (ha : 0 < a) : log (fin a) = fin (Real.log a) := by
  have h1 : ¬ a < 0 := not_lt.mpr ha.le
  simp [log, h1, ha.ne']

theorem beq_fin_fin_ne (a b : ℝ) (h : a ≠ b) : beq (fin a) (fin b) = false := by
  simp [beq, h]

theorem pow_one_base : ∀ y : Fl, pow (fin 1) y = fin 1
  | fin e => by
      by_cases he : e = 0
      · simp [pow, he]
      · simp [pow, he, Real.one_rpow]
  | nan => by simp [pow]
  | pinf => by norm_num [pow]
  | ninf => by norm_num [pow]

theorem pow_fin_pos (b e : ℝ) (hb : 0 < b) (he : e ≠ 0) :
    pow (fin b) (fin e) = fin (b ^ e) := by
  simp [pow, he, hb.ne', hb]

theorem min_fin_fin (a b : ℝ) : min (fin a) (fin b) = fin (Min.min a b) := by
  by_cases h : b < a
  · simp [min, lt, h, min_eq_right h.le]
  · simp [min, lt, h, min_eq_left (not_lt.mp h)]

theorem isFinite_add_left_false (x y : Fl) (hx : isFinite x = false) :
    isFinite (add x y) = false := by
  cases x <;> cases y <;> simp_all [add, isFinite]

theorem isFinite_add_fin_false (a : ℝ) (y : Fl) (hy : isFinite y = false) :
    isFinite (add (fin a) y) = false := by
  cases y <;> simp_all [add, isFinite]

theorem isFinite_div_by_fin_false (x : Fl) (c : ℝ) (hx : isFinite x = false) :
    isFinite (div x (fin c)) = false := by
  cases x with
  | nan => simp [div, isFinite]
  | pinf =>
      simp only [div]
      split <;> simp [isFinite]
  | ninf =>
      simp only [div]
      split <;> simp [isFinite]
  | fin a => simp [isFinite] at hx

theorem isFinite_div_fin_zero (a : ℝ) : isFinite (div (fin a) (fin 0)) = false := by
  by_cases h0 : a = 0
  · simp [div, isFinite, h0]
  · by_cases hneg : a < 0
    · simp [div, isFinite, h0, hneg]
    · simp [div, isFinite, h0, hneg]

theorem err_div_zero_nonfinite (x : Fl) :
    isFinite (div (abs x) (fin 0)) = false := by
  cases x with
  | nan => simp [abs, div, isFinite]
  | pinf => simp [abs, div, isFinite]
  | ninf => simp [abs, div, isFinite]
  | fin a => exact isFinite_div_fin_zero |a|

theorem err_div_zero_lt_false (x : Fl) (rt : ℝ) :
    lt (div (abs x) (fin 0)) (fin rt) = false := by
  cases x with
  | nan => simp [abs, div, lt]
  | pinf => simp [abs, div, lt]
  | ninf => simp [abs, div, lt]
  | fin a =>
      by_cases h0 : |a| = 0
      · simp [abs, div, lt, h0]
      · have hneg : ¬ |a| < 0 := not_lt.mpr (abs_nonneg a)
        simp [abs, div, lt, h0, hneg]

end Fl

/-! ## Float-model embedding of the source functions (for C7 and C10) -/

/-- `extrap` over the float model. -/
noncomputable def flExtrap (f1 f2 r p : Fl) : Fl :=
  Fl.add f1 (Fl.div (Fl.sub f1 f2) (Fl.sub (Fl.pow r p) (Fl.fin 1)))

/-- `order` over the float model. -/
noncomputable def flOrder (f1 f2 favg h : Fl) : Fl :=
  Fl.div (Fl.log (Fl.div (Fl.abs (Fl.sub favg f2)) (Fl.abs (Fl.sub favg f1))))
    (Fl.log h)

/-- `average` over the float model. -/
noncomputable def flAverage (v1 v2 : Fl) : Fl := Fl.div (Fl.add v1 v2) (Fl.fin 2)

/-- One iteration of the `re_arbitrary` loop body over the float model
(scalar branch of the `hasattr` test, Python `min`). -/
noncomputable def flStep (f1 f2 f3 r21 r32 p : Fl) : Fl × Fl :=
  (flAverage (flExtrap f1 f2 r21 p) (flExtrap f2 f3 r32 p),
   Fl.min
     (flOrder f1 f2 (flAverage (flExtrap f1 f2 r21 p) (flExtrap f2 f3 r32 p)) r21)
     (flOrder f2 f3 (flAverage (flExtrap f1 f2 r21 p) (flExtrap f2 f3 r32 p)) r32))

/-- `re_124` over the float model. -/
noncomputable def flRe_124 (m1 m2 m3 f1 f2 f3 : Fl) : Fl × Fl :=
  (Fl.add (Fl.add f3 (Fl.div (Fl.sub f3 f2) (Fl.fin 3)))
    (Fl.div
      (Fl.sub (Fl.add f3 (Fl.div (Fl.sub f3 f2) (Fl.fin 3)))
        (Fl.add f2 (Fl.div (Fl.sub f2 f1) (Fl.fin 3))))
      (Fl.fin 15)),
   Fl.fin 2)

/-- `re_arbitrary` over the float model; same peeled-first-pass structure as
the real-number model, with the break test
`abs(pavg - p) / error1 < reltol` under float comparison semantics
(any comparison against NaN is false). -/
noncomputable def flRe_arbitrary (m1 m2 m3 f1 f2 f3 p reltol : Fl) : Fl × Fl :=
  let r21 := Fl.pow (Fl.div m1 m2) (Fl.fin (1 / 3))
  let r32 := Fl.pow (Fl.div m2 m3) (Fl.fin (1 / 3))
  let error1 := Fl.abs (Fl.sub (flStep f1 f2 f3 r21 r32 p).2 p)
  if Fl.lt (Fl.div (Fl.abs (Fl.sub (flStep f1 f2 f3 r21 r32 p).2 p)) error1) reltol
      = true then
    flStep f1 f2 f3 r21 r32 p
  else
    loopAux (flStep f1 f2 f3 r21 r32)
      (fun pp q => Fl.lt (Fl.div (Fl.abs (Fl.sub q pp)) error1) reltol = true)
      98 (flStep f1 f2 f3 r21 r32 p).2

/-- `extrapolate` over the float model: float equality dispatch
`m3 == m2 * 2 and m2 == m1 * 2`. -/
noncomputable def flExtrapolate (m1 m2 m3 f1 f2 f3 p reltol : Fl) : Fl × Fl :=
  if (Fl.beq m3 (Fl.mul m2 (Fl.fin 2)) && Fl.beq m2 (Fl.mul m1 (Fl.fin 2))) = true
  then flRe_124 m1 m2 m3 f1 f2 f3
  else flRe_arbitrary m1 m2 m3 f1 f2 f3 p reltol

theorem flExtrap_base_one_nonfinite (a b : ℝ) (p : Fl) :
    Fl.isFinite (flExtrap (Fl.fin a) (Fl.fin b) (Fl.fin 1) p) = false := by
  rw [flExtrap, Fl.pow_one_base, Fl.sub_fin_fin, Fl.sub_fin_fin,
    show (1:ℝ) - 1 = 0 by norm_num]
  exact Fl.isFinite_add_fin_false a _ (Fl.isFinite_div_fin_zero (a - b))

theorem flAverage_left_nonfinite (x y : Fl) (hx : Fl.isFinite x = false) :
    Fl.isFinite (flAverage x y) = false := by
  rw [flAverage]
  exact Fl.isFinite_div_by_fin_false _ 2 (Fl.isFinite_add_left_false x y hx)

theorem flStep_base_one_nonfinite (a b c : ℝ) (r32 p : Fl) :
    Fl.isFinite (flStep (Fl.fin a) (Fl.fin b) (Fl.fin c) (Fl.fin 1) r32 p).1 = false := by
  simp only [flStep]
  exact flAverage_left_nonfinite _ _ (flExtrap_base_one_nonfinite a b p)

/-! ## Claims C7 and C10 -/

/-- C7: with `m1 = m2 > 0` (zero refinement between the first two levels),
`extrapolate` takes the iterative branch, where `r21 = (m1/m2)^(1/3) = 1`
makes `r21^p - 1 = 0`; under IEEE-754 semantics the resulting divisions by
zero propagate, so the returned extrapolated value is non-finite (NaN or
±inf) for every finite sample triple, every assumed order and tolerance.
No exception exists in this model: every operation is total and all
anomalies flow through the returned pair, matching the source, which raises
nothing. -/
theorem c7_degenerate_nonfinite (m1 m2 m3 f1 f2 f3 p0 rt : ℝ)
    (heq : m1 = m2) (hpos : 0 < m1) :
    Fl.isFinite (flExtrapolate (Fl.fin m1) (Fl.fin m2) (Fl.fin m3) (Fl.fin f1)
      (Fl.fin f2) (Fl.fin f3) (Fl.fin p0) (Fl.fin rt)).1 = false := by
  subst heq
  have hne : m1 ≠ m1 * 2 := by intro h; nlinarith
  have hbeq : Fl.beq (Fl.fin m1) (Fl.mul (Fl.fin m1) (Fl.fin 2)) = false := by
    rw [Fl.mul_fin_fin]
    exact Fl.beq_fin_fin_ne m1 (m1 * 2) hne
  have hcond : ¬ ((Fl.beq (Fl.fin m3) (Fl.mul (Fl.fin m1) (Fl.fin 2)) &&
      Fl.beq (Fl.fin m1) (Fl.mul (Fl.fin m1) (Fl.fin 2))) = true) := by
    rw [Bool.and_eq_true]
    rintro ⟨-, h2⟩
    rw [hbeq] at h2
    exact Bool.false_ne_true h2
  rw [flExtrapolate, if_neg hcond]
  have hdiv : Fl.div (Fl.fin m1) (Fl.fin m1) = Fl.fin 1 := by
    rw [Fl.div_fin_fin m1 m1 hpos.ne', div_self hpos.ne']
  simp only [flRe_arbitrary, hdiv, Fl.pow_one_base]
  split
  · exact flStep_base_one_nonfinite f1 f2 f3 _ _
  · obtain ⟨k, -, hk, -, -⟩ :=
      loopAux_spec
        (flStep (Fl.fin f1) (Fl.fin f2) (Fl.fin f3) (Fl.fin 1)
          (Fl.pow (Fl.div (Fl.fin m1) (Fl.fin m3)) (Fl.fin (1 / 3))))
        (fun pp q => Fl.lt (Fl.div (Fl.abs (Fl.sub q pp))
          (Fl.abs (Fl.sub (flStep (Fl.fin f1) (Fl.fin f2) (Fl.fin f3) (Fl.fin 1)
            (Fl.pow (Fl.div (Fl.fin m1) (Fl.fin m3)) (Fl.fin (1 / 3)))
            (Fl.fin p0)).2 (Fl.fin p0)))) (Fl.fin rt) = true)
        98
        (flStep (Fl.fin f1) (Fl.fin f2) (Fl.fin f3) (Fl.fin 1)
          (Fl.pow (Fl.div (Fl.fin m1) (Fl.fin m3)) (Fl.fin (1 / 3))) (Fl.fin p0)).2
    rw [hk]
    exact flStep_base_one_nonfinite f1 f2 f3 _ _

/-- Witness for C7 at `m1 = m2 = 2`, `m3 = 7`, samples `(1, 2, 3)`. -/
theorem c7_degenerate_nonfinite_witness :
    Fl.isFinite (flExtrapolate (Fl.fin 2) (Fl.fin 2) (Fl.fin 7) (Fl.fin 1)
      (Fl.fin 2) (Fl.fin 3) (Fl.fin 2) (Fl.fin (1e-12))).1 = false :=
  c7_degenerate_nonfinite 2 2 7 1 2 3 2 (1e-12) rfl (by norm_num)

/-- C10: if the order estimate of the first iteration exactly equals the
supplied assumed order, the baseline `error1 = |pavg - p|` is exactly zero,
every later relative error `|p_new - p_prev| / error1` is a division by zero
and hence non-finite (NaN for a zero numerator, `+inf` otherwise), no such
error ever satisfies `error < reltol` under float comparison, so the break
never fires and the loop performs all 100 iterations (the peeled first pass
plus 99 more), returning the pair of the 100th. -/
theorem c10_zero_baseline (m1 m2 m3 f1 f2 f3 p0 rt : ℝ)
    (h : (flStep (Fl.fin f1) (Fl.fin f2) (Fl.fin f3)
        (Fl.pow (Fl.div (Fl.fin m1) (Fl.fin m2)) (Fl.fin (1 / 3)))
        (Fl.pow (Fl.div (Fl.fin m2) (Fl.fin m3)) (Fl.fin (1 / 3)))
        (Fl.fin p0)).2 = Fl.fin p0) :
    Fl.abs (Fl.sub (flStep (Fl.fin f1) (Fl.fin f2) (Fl.fin f3)
        (Fl.pow (Fl.div (Fl.fin m1) (Fl.fin m2)) (Fl.fin (1 / 3)))
        (Fl.pow (Fl.div (Fl.fin m2) (Fl.fin m3)) (Fl.fin (1 / 3)))
        (Fl.fin p0)).2 (Fl.fin p0)) = Fl.fin 0 ∧
    (∀ x : Fl, Fl.isFinite (Fl.div (Fl.abs x) (Fl.fin 0)) = false ∧
      Fl.lt (Fl.div (Fl.abs x) (Fl.fin 0)) (Fl.fin rt) = false) ∧
    flRe_arbitrary (Fl.fin m1) (Fl.fin m2) (Fl.fin m3) (Fl.fin f1) (Fl.fin f2)
        (Fl.fin f3) (Fl.fin p0) (Fl.fin rt) =
      flStep (Fl.fin f1) (Fl.fin f2) (Fl.fin f3)
        (Fl.pow (Fl.div (Fl.fin m1) (Fl.fin m2)) (Fl.fin (1 / 3)))
        (Fl.pow (Fl.div (Fl.fin m2) (Fl.fin m3)) (Fl.fin (1 / 3)))
        ((fun q => (flStep (Fl.fin f1) (Fl.fin f2) (Fl.fin f3)
          (Fl.pow (Fl.div (Fl.fin m1) (Fl.fin m2)) (Fl.fin (1 / 3)))
          (Fl.pow (Fl.div (Fl.fin m2) (Fl.fin m3)) (Fl.fin (1 / 3))) q).2)^[99]
          (Fl.fin p0)) := by
  have herr1 : Fl.abs (Fl.sub (flStep (Fl.fin f1) (Fl.fin f2) (Fl.fin f3)
      (Fl.pow (Fl.div (Fl.fin m1) (Fl.fin m2)) (Fl.fin (1 / 3)))
      (Fl.pow (Fl.div (Fl.fin m2) (Fl.fin m3)) (Fl.fin (1 / 3)))
      (Fl.fin p0)).2 (Fl.fin p0)) = Fl.fin 0 := by
    rw [h, Fl.sub_fin_fin, sub_self, Fl.abs_fin, abs_zero]
  have hconst : ∀ k : ℕ,
      (fun q => (flStep (Fl.fin f1) (Fl.fin f2) (Fl.fin f3)
        (Fl.pow (Fl.div (Fl.fin m1) (Fl.fin m2)) (Fl.fin (1 / 3)))
        (Fl.pow (Fl.div (Fl.fin m2) (Fl.fin m3)) (Fl.fin (1 / 3))) q).2)^[k]
        (Fl.fin p0) = Fl.fin p0 := by
    intro k
    induction k with
    | zero => rfl
    | succ k ih =>
        rw [Function.iterate_succ_apply', ih]
        exact h
  refine ⟨herr1, fun x => ⟨Fl.err_div_zero_nonfinite x, Fl.err_div_zero_lt_false x rt⟩, ?_⟩
  have hnabla : ¬ (Fl.lt (Fl.div (Fl.abs (Fl.sub (flStep (Fl.fin f1) (Fl.fin f2)
      (Fl.fin f3) (Fl.pow (Fl.div (Fl.fin m1) (Fl.fin m2)) (Fl.fin (1 / 3)))
      (Fl.pow (Fl.div (Fl.fin m2) (Fl.fin m3)) (Fl.fin (1 / 3))) (Fl.fin p0)).2
      (Fl.fin p0)))
      (Fl.abs (Fl.sub (flStep (Fl.fin f1) (Fl.fin f2) (Fl.fin f3)
        (Fl.pow (Fl.div (Fl.fin m1) (Fl.fin m2)) (Fl.fin (1 / 3)))
        (Fl.pow (Fl.div (Fl.fin m2) (Fl.fin m3)) (Fl.fin (1 / 3))) (Fl.fin p0)).2
        (Fl.fin p0)))) (Fl.fin rt) = true) := by
    rw [herr1]
    simp [Fl.div, Fl.lt]
  simp only [flRe_arbitrary]
  rw [if_neg ?hc]
  case hc =>
    intro hcontra
    apply hnabla
    exact hcontra
  rw [herr1]
  have hstop : ∀ a b : Fl,
      ¬ (Fl.lt (Fl.div (Fl.abs (Fl.sub b a)) (Fl.fin 0)) (Fl.fin rt) = true) := by
    intro a b hcontra
    rw [Fl.err_div_zero_lt_false (Fl.sub b a) rt] at hcontra
    exact Bool.false_ne_true hcontra
  rw [loopAux_all _ _ (fun a b => hstop a b) 98, h, hconst 98, hconst 99]

theorem rpow_third_of_cube (x y : ℝ) (hy : 0 ≤ y) (h : x = y ^ (3:ℕ)) :
    x ^ ((1:ℝ)/3) = y := by
  rw [h, ← Real.rpow_natCast y 3, ← Real.rpow_mul hy,
    show ((3:ℕ):ℝ) * ((1:ℝ)/3) = 1 by push_cast; ring]
  exact Real.rpow_one y

/-- Concrete input on which the first pass of the iterative branch returns
the assumed order exactly: `m = (1, 8, 64)` (so `r21 = r32 = 1/2`) with
samples `(1, 1/4, 1/16)` and assumed order 2. -/
theorem c10_first_pass_exact :
    (flStep (Fl.fin 1) (Fl.fin (1/4)) (Fl.fin (1/16))
      (Fl.pow (Fl.div (Fl.fin 1) (Fl.fin 8)) (Fl.fin (1 / 3)))
      (Fl.pow (Fl.div (Fl.fin 8) (Fl.fin 64)) (Fl.fin (1 / 3)))
      (Fl.fin 2)).2 = Fl.fin 2 := by
  have hd1 : Fl.div (Fl.fin 1) (Fl.fin 8) = Fl.fin (1/8) :=
    Fl.div_fin_fin 1 8 (by norm_num)
  have hd2 : Fl.div (Fl.fin 8) (Fl.fin 64) = Fl.fin (1/8) := by
    rw [Fl.div_fin_fin 8 64 (by norm_num)]
    congr 1
    norm_num
  have hr : Fl.pow (Fl.fin ((1:ℝ)/8)) (Fl.fin (1 / 3)) = Fl.fin (1/2) := by
    rw [Fl.pow_fin_pos (1/8) (1/3) (by norm_num) (by norm_num),
      rpow_third_of_cube (1/8) (1/2) (by norm_num) (by norm_num)]
  have hsq : Fl.pow (Fl.fin ((1:ℝ)/2)) (Fl.fin 2) = Fl.fin (1/4) := by
    rw [Fl.pow_fin_pos (1/2) 2 (by norm_num) (by norm_num)]
    congr 1
    rw [show (2:ℝ) = ((2:ℕ):ℝ) by norm_num, Real.rpow_natCast]
    norm_num
  have hext1 : flExtrap (Fl.fin 1) (Fl.fin (1/4)) (Fl.fin (1/2)) (Fl.fin 2)
      = Fl.fin 0 := by
    rw [flExtrap, hsq, Fl.sub_fin_fin, Fl.sub_fin_fin,
      Fl.div_fin_fin _ _ (by norm_num : (1:ℝ)/4 - 1 ≠ 0), Fl.add_fin_fin]
    congr 1
    norm_num
  have hext2 : flExtrap (Fl.fin (1/4)) (Fl.fin (1/16)) (Fl.fin (1/2)) (Fl.fin 2)
      = Fl.fin 0 := by
    rw [flExtrap, hsq, Fl.sub_fin_fin, Fl.sub_fin_fin,
      Fl.div_fin_fin _ _ (by norm_num : (1:ℝ)/4 - 1 ≠ 0), Fl.add_fin_fin]
    congr 1
    norm_num
  have havg : flAverage (Fl.fin 0) (Fl.fin 0) = Fl.fin 0 := by
    rw [flAverage, Fl.add_fin_fin, Fl.div_fin_fin _ _ (by norm_num : (2:ℝ) ≠ 0)]
    congr 1
    norm_num
  have hlog2 : Real.log ((1:ℝ)/2) ≠ 0 := by
    intro hcontra
    rcases Real.log_eq_zero.mp hcontra with hh | hh | hh <;> norm_num at hh
  have hlogq : Real.log ((1:ℝ)/4) / Real.log ((1:ℝ)/2) = 2 := by
    rw [show ((1:ℝ)/4) = ((1:ℝ)/2) ^ (2:ℕ) by norm_num, Real.log_pow,
      mul_div_assoc, div_self hlog2]
    norm_num
  have hord1 : flOrder (Fl.fin 1) (Fl.fin (1/4)) (Fl.fin 0) (Fl.fin (1/2))
      = Fl.fin 2 := by
    rw [flOrder, Fl.sub_fin_fin, Fl.sub_fin_fin, Fl.abs_fin, Fl.abs_fin,
      show |(0:ℝ) - 1/4| = 1/4 by rw [abs_sub_comm]; norm_num [abs_of_nonneg],
      show |(0:ℝ) - 1| = 1 by rw [abs_sub_comm]; norm_num [abs_of_nonneg],
      Fl.div_fin_fin _ _ (by norm_num : (1:ℝ) ≠ 0),
      show ((1:ℝ)/4) / 1 = 1/4 by norm_num,
      Fl.log_fin_pos _ (by norm_num : (0:ℝ) < 1/4),
      Fl.log_fin_pos _ (by norm_num : (0:ℝ) < 1/2),
      Fl.div_fin_fin _ _ hlog2, hlogq]
  have hord2 : flOrder (Fl.fin (1/4)) (Fl.fin (1/16)) (Fl.fin 0) (Fl.fin (1/2))
      = Fl.fin 2 := by
    rw [flOrder, Fl.sub_fin_fin, Fl.sub_fin_fin, Fl.abs_fin, Fl.abs_fin,
      show |(0:ℝ) - 1/16| = 1/16 by rw [abs_sub_comm]; norm_num [abs_of_nonneg],
      show |(0:ℝ) - 1/4| = 1/4 by rw [abs_sub_comm]; norm_num [abs_of_nonneg],
      Fl.div_fin_fin _ _ (by norm_num : (1:ℝ)/4 ≠ 0),
      show ((1:ℝ)/16) / (1/4) = 1/4 by norm_num,
      Fl.log_fin_pos _ (by norm_num : (0:ℝ) < 1/4),
      Fl.log_fin_pos _ (by norm_num : (0:ℝ) < 1/2),
      Fl.div_fin_fin _ _ hlog2, hlogq]
  have hminn : Fl.min (Fl.fin 2) (Fl.fin 2) = Fl.fin 2 := by
    rw [Fl.min_fin_fin]
    congr 1
    exact min_self 2
  simp only [flStep]
  rw [hd1, hd2, hr, hext1, hext2, havg, hord1, hord2, hminn]

/-- Witness for C10: `m = (1, 8, 64)` gives exact refinement ratios
`r21 = r32 = 1/2`; the samples `(1, 1/4, 1/16)` follow `f(m) = 0 + 1/m^(2/3)`
rescaled so that the first iteration returns order exactly 2, equal to the
assumed order. -/
theorem c10_zero_baseline_witness :
    Fl.abs (Fl.sub (flStep (Fl.fin 1) (Fl.fin (1/4)) (Fl.fin (1/16))
        (Fl.pow (Fl.div (Fl.fin 1) (Fl.fin 8)) (Fl.fin (1 / 3)))
        (Fl.pow (Fl.div (Fl.fin 8) (Fl.fin 64)) (Fl.fin (1 / 3)))
        (Fl.fin 2)).2 (Fl.fin 2)) = Fl.fin 0 ∧
    (∀ x : Fl, Fl.isFinite (Fl.div (Fl.abs x) (Fl.fin 0)) = false ∧
      Fl.lt (Fl.div (Fl.abs x) (Fl.fin 0)) (Fl.fin (1e-12)) = false) ∧
    flRe_arbitrary (Fl.fin 1) (Fl.fin 8) (Fl.fin 64) (Fl.fin 1) (Fl.fin (1/4))
        (Fl.fin (1/16)) (Fl.fin 2) (Fl.fin (1e-12)) =
      flStep (Fl.fin 1) (Fl.fin (1/4)) (Fl.fin (1/16))
        (Fl.pow (Fl.div (Fl.fin 1) (Fl.fin 8)) (Fl.fin (1 / 3)))
        (Fl.pow (Fl.div (Fl.fin 8) (Fl.fin 64)) (Fl.fin (1 / 3)))
        ((fun q => (flStep (Fl.fin 1) (Fl.fin (1/4)) (Fl.fin (1/16))
          (Fl.pow (Fl.div (Fl.fin 1) (Fl.fin 8)) (Fl.fin (1 / 3)))
          (Fl.pow (Fl.div (Fl.fin 8) (Fl.fin 64)) (Fl.fin (1 / 3))) q).2)^[99]
          (Fl.fin 2)) :=
  c10_zero_baseline 1 8 64 1 (1/4) (1/16) 2 (1e-12) c10_first_pass_exact

end Richardson
